import Mathlib

/-!
Formal model of the sqltrace analytical core: the execution-plan data model,
the advisory rule engine (src/advisor/mod.rs), the plan-tree indexer for the
UI (src/ui/mod.rs), the EXPLAIN JSON ingestion (src/db/mod.rs) and the
benchmark engine (src/benchmark/mod.rs), together with verified properties.

Modelling conventions:
- Rust f64 values are modelled as exact rationals where only comparisons,
  sums and divisions occur, and as real numbers where a square root is
  taken.  Float rounding is out of scope; all claims proved here concern
  formula structure, control flow and integer data.
- u8, u32, u64, u128 and usize are modelled as Nat; every quantity involved
  stays far below each overflow bound (the performance score never exceeds
  100, durations are nanosecond counts, indices are vector lengths), so Nat
  models the machine integers exactly, including saturating_sub which is
  the truncated Nat subtraction.
- Presentation-only String fields (title, description, recommendation,
  impact of a suggestion) carry no logic in the source and are omitted
  from the suggestion record; suggestion_type, severity and node_index,
  which the specification constrains, are kept.
- Durations are their nanosecond counts (Duration.as_nanos).
-/

/-
Batteries tags rational arithmetic irreducible, which blocks definitional
evaluation of concrete advisor configurations; proofs rely on definitional
unfolding of these operations, which the kernel permits in any case.
-/
set_option allowUnsafeReducibility true in
attribute [semireducible] Rat.mul Rat.add Rat.sub Rat.inv

/-- JSON values, modelling serde_json::Value with exact rational numbers. -/
inductive Json where
  | null
  | bool (b : Bool)
  | num (q : ℚ)
  | str (s : String)
  | arr (elems : List Json)
  | obj (fields : List (String × Json))

/-- Field lookup on a JSON value: Value::get returns None on non-objects. -/
def Json.get : Json → String → Option Json
  | .obj fields, key => fields.lookup key
  | _, _ => none

/-- Value::as_str. -/
def Json.asStr : Json → Option String
  | .str s => some s
  | _ => none

/-- Value::as_array. -/
def Json.asArray : Json → Option (List Json)
  | .arr xs => some xs
  | _ => none

/--
A node of a PostgreSQL execution plan (struct PlanNode of
src/db/models/plan.rs).  The UI module uses a second PlanNode declaration
(crate::db::models) that differs only in the naming of scalar timing
fields; the tree shape and every field consulted by the advisor and the
indexer are the ones present here.  Children live in plans; all JSON keys
not promoted to named fields are preserved verbatim in extra
(serde flatten).
-/
inductive PlanNode where
  | mk (node_type : String)
       (relation_name : Option String)
       (aliasName : Option String)
       (startup_cost : ℚ)
       (total_cost : ℚ)
       (actual_startup_time : Option ℚ)
       (actual_total_time : ℚ)
       (actual_rows : Nat)
       (actual_loops : Nat)
       (plans : List PlanNode)
       (extra : List (String × Json))

def PlanNode.node_type : PlanNode → String
  | .mk v _ _ _ _ _ _ _ _ _ _ => v

def PlanNode.relation_name : PlanNode → Option String
  | .mk _ v _ _ _ _ _ _ _ _ _ => v

def PlanNode.aliasName : PlanNode → Option String
  | .mk _ _ v _ _ _ _ _ _ _ _ => v

def PlanNode.startup_cost : PlanNode → ℚ
  | .mk _ _ _ v _ _ _ _ _ _ _ => v

def PlanNode.total_cost : PlanNode → ℚ
  | .mk _ _ _ _ v _ _ _ _ _ _ => v

def PlanNode.actual_startup_time : PlanNode → Option ℚ
  | .mk _ _ _ _ _ v _ _ _ _ _ => v

def PlanNode.actual_total_time : PlanNode → ℚ
  | .mk _ _ _ _ _ _ v _ _ _ _ => v

def PlanNode.actual_rows : PlanNode → Nat
  | .mk _ _ _ _ _ _ _ v _ _ _ => v

def PlanNode.actual_loops : PlanNode → Nat
  | .mk _ _ _ _ _ _ _ _ v _ _ => v

def PlanNode.plans : PlanNode → List PlanNode
  | .mk _ _ _ _ _ _ _ _ _ v _ => v

def PlanNode.extra : PlanNode → List (String × Json)
  | .mk _ _ _ _ _ _ _ _ _ _ v => v

/-- A complete execution plan (struct ExecutionPlan): root node + timings. -/
structure ExecutionPlan where
  root : PlanNode
  planning_time : ℚ
  execution_time : ℚ

mutual
/-- Depth-first pre-order flattening of a plan subtree (the node followed
by the pre-order traversal of its children, left to right). -/
def preorder : PlanNode → List PlanNode
  | .mk nt rn al sc tc ast att ar alp ps ex =>
      .mk nt rn al sc tc ast att ar alp ps ex :: preorderList ps

def preorderList : List PlanNode → List PlanNode
  | [] => []
  | c :: rest => preorder c ++ preorderList rest
end

/-! ## Advisory rule engine (src/advisor/mod.rs) -/

/-- Severity level of an optimization suggestion. -/
inductive Severity where
  | high
  | medium
  | low
deriving DecidableEq

/-- An optimization suggestion; presentation-only text fields are omitted
(see the header comment). -/
structure OptimizationSuggestion where
  suggestion_type : String
  severity : Severity
  node_index : Option Nat
deriving DecidableEq

/-- Analysis summary statistics (struct AnalysisSummary). -/
structure AnalysisSummary where
  total_suggestions : Nat
  high_severity_count : Nat
  most_expensive_operation : String
  total_cost : ℚ
  potential_improvement : String

/-- Complete advisor analysis result (struct AdvisorAnalysis);
performance_score is a u8 in the source, always in [10, 100]. -/
structure AdvisorAnalysis where
  suggestions : List OptimizationSuggestion
  performance_score : Nat
  summary : AnalysisSummary

/-- Configuration for the advisor engine (struct AdvisorConfig). -/
structure AdvisorConfig where
  expensive_cost_threshold : ℚ
  large_scan_threshold : Nat
  enable_index_suggestions : Bool
  enable_rewrite_suggestions : Bool

/-- AdvisorConfig::default. -/
def AdvisorConfig.default : AdvisorConfig :=
  { expensive_cost_threshold := 1000
    large_scan_threshold := 10000
    enable_index_suggestions := true
    enable_rewrite_suggestions := true }

/-- check_sequential_scan: Seq Scan with total_cost above the expensive
threshold pushes a High severity Index suggestion. -/
def check_sequential_scan (cfg : AdvisorConfig) (node : PlanNode)
    (node_index : Nat) : List OptimizationSuggestion :=
  if node.node_type = "Seq Scan" ∧ node.total_cost > cfg.expensive_cost_threshold then
    [{ suggestion_type := "Index", severity := .high, node_index := some node_index }]
  else []

/-- check_expensive_operations: total_cost above twice the expensive
threshold pushes a Medium severity Performance suggestion. -/
def check_expensive_operations (cfg : AdvisorConfig) (node : PlanNode)
    (node_index : Nat) : List OptimizationSuggestion :=
  if node.total_cost > cfg.expensive_cost_threshold * 2 then
    [{ suggestion_type := "Performance", severity := .medium, node_index := some node_index }]
  else []

/-- check_nested_loops: Nested Loop with actual_rows above the large-scan
threshold pushes a High severity Join suggestion. -/
def check_nested_loops (cfg : AdvisorConfig) (node : PlanNode)
    (node_index : Nat) : List OptimizationSuggestion :=
  if node.node_type = "Nested Loop" ∧ node.actual_rows > cfg.large_scan_threshold then
    [{ suggestion_type := "Join", severity := .high, node_index := some node_index }]
  else []

/-- check_large_sorts: Sort with actual_rows above the large-scan threshold
pushes a Medium severity Index suggestion. -/
def check_large_sorts (cfg : AdvisorConfig) (node : PlanNode)
    (node_index : Nat) : List OptimizationSuggestion :=
  if node.node_type = "Sort" ∧ node.actual_rows > cfg.large_scan_threshold then
    [{ suggestion_type := "Index", severity := .medium, node_index := some node_index }]
  else []

/-- check_missing_indexes: when index suggestions are enabled and the extra
data carries a Filter key, push a Medium severity Index suggestion. -/
def check_missing_indexes (cfg : AdvisorConfig) (node : PlanNode)
    (node_index : Nat) : List OptimizationSuggestion :=
  if cfg.enable_index_suggestions = false then []
  else
    match node.extra.lookup "Filter" with
    | some _ =>
        [{ suggestion_type := "Index", severity := .medium, node_index := some node_index }]
    | none => []

/-- str::contains(pattern): some suffix of the text starts with the
pattern. -/
def containsSubstring (s pat : String) : Bool :=
  s.data.tails.any (fun t => pat.data.isPrefixOf t)

/-- check_inefficient_joins: node_type containing Join with total_cost above
the expensive threshold pushes a Medium severity Join suggestion. -/
def check_inefficient_joins (cfg : AdvisorConfig) (node : PlanNode)
    (node_index : Nat) : List OptimizationSuggestion :=
  if containsSubstring node.node_type "Join" = true ∧
      node.total_cost > cfg.expensive_cost_threshold then
    [{ suggestion_type := "Join", severity := .medium, node_index := some node_index }]
  else []

/-- All six rules applied to one node, in the order analyze_node applies
them; each push appends to the shared suggestion vector. -/
def rulesAt (cfg : AdvisorConfig) (node : PlanNode) (node_index : Nat) :
    List OptimizationSuggestion :=
  check_sequential_scan cfg node node_index ++
  check_expensive_operations cfg node node_index ++
  check_nested_loops cfg node node_index ++
  check_large_sorts cfg node node_index ++
  check_missing_indexes cfg node node_index ++
  check_inefficient_joins cfg node node_index

/-- HashMap::insert on the node-cost map: replaces the value of an existing
key, otherwise appends.  (Iteration order of the Rust HashMap is
unspecified; the summary field derived from it is argmax up to ties.) -/
def insertCost : List (String × ℚ) → String → ℚ → List (String × ℚ)
  | [], k, v => [(k, v)]
  | (k0, v0) :: rest, k, v =>
      if k0 = k then (k, v) :: rest else (k0, v0) :: insertCost rest k v

mutual
/--
analyze_node: records the node cost, applies the six rules, then recurses
into each child.  The source passes node_index + i + 1 as the index of the
i-th child (0-based); the child iteration is split into analyzeChildren.
State is the pair (suggestion list, node-cost map).
-/
def analyze_node (cfg : AdvisorConfig) :
    PlanNode → List OptimizationSuggestion × List (String × ℚ) → Nat →
    List OptimizationSuggestion × List (String × ℚ)
  | .mk nt rn al sc tc ast att ar alp ps ex, st, node_index =>
      let node := PlanNode.mk nt rn al sc tc ast att ar alp ps ex
      let costs := insertCost st.2 node.node_type node.total_cost
      let sugs := st.1 ++ rulesAt cfg node node_index
      analyzeChildren cfg ps (sugs, costs) node_index 0

def analyzeChildren (cfg : AdvisorConfig) :
    List PlanNode → List OptimizationSuggestion × List (String × ℚ) → Nat → Nat →
    List OptimizationSuggestion × List (String × ℚ)
  | [], st, _, _ => st
  | child :: rest, st, node_index, i =>
      let st1 := analyze_node cfg child st (node_index + i + 1)
      analyzeChildren cfg rest st1 node_index (i + 1)
end

/-- generate_summary (struct AnalysisSummary construction). -/
def generate_summary (suggestions : List OptimizationSuggestion)
    (node_costs : List (String × ℚ)) (plan : ExecutionPlan) : AnalysisSummary :=
  let high_severity_count :=
    suggestions.countP (fun s => s.severity = Severity.high)
  let most_expensive_operation :=
    match node_costs.foldl
        (fun best kv =>
          match best with
          | none => some kv
          | some b => if b.2 < kv.2 then some kv else some b)
        none with
    | some kv => kv.1
    | none => "Unknown"
  let potential_improvement :=
    if high_severity_count = 0 then "Low - Query appears well optimized"
    else if high_severity_count ≤ 2 then "Medium - Some optimization opportunities available"
    else "High - Significant optimization potential"
  { total_suggestions := suggestions.length
    high_severity_count := high_severity_count
    most_expensive_operation := most_expensive_operation
    total_cost := plan.root.total_cost
    potential_improvement := potential_improvement }

/-- Point deduction per suggestion severity used by the score. -/
def severityDeduction : Severity → Nat
  | .high => 20
  | .medium => 10
  | .low => 5

/-- calculate_performance_score: start at 100, saturating-subtract the
deduction of each suggestion, subtract 10 more when execution_time exceeds
1000 ms, then floor the result at 10 (score.max(10)). -/
def calculate_performance_score (suggestions : List OptimizationSuggestion)
    (plan : ExecutionPlan) : Nat :=
  let score :=
    suggestions.foldl (fun score s => score - severityDeduction s.severity) 100
  let score := if plan.execution_time > 1000 then score - 10 else score
  score.max 10

/-- analyze_plan: run the recursive rule traversal from the root with index
0, then assemble summary and score. -/
def analyze_plan (cfg : AdvisorConfig) (plan : ExecutionPlan) : AdvisorAnalysis :=
  let st := analyze_node cfg plan.root ([], []) 0
  { suggestions := st.1
    performance_score := calculate_performance_score st.1 plan
    summary := generate_summary st.1 st.2 plan }

mutual
/--
The index the advisor actually assigns to each visited node: the root of the
traversal carries the incoming index, and the i-th child (0-based) of a node
carrying index p carries p + i + 1, exactly as analyze_node passes indices.
Listed in visit order.
-/
def advisorVisits : PlanNode → Nat → List (PlanNode × Nat)
  | .mk nt rn al sc tc ast att ar alp ps ex, idx =>
      (PlanNode.mk nt rn al sc tc ast att ar alp ps ex, idx) ::
        advisorVisitsList ps idx 0

def advisorVisitsList : List PlanNode → Nat → Nat → List (PlanNode × Nat)
  | [], _, _ => []
  | c :: rest, parent, i =>
      advisorVisits c (parent + i + 1) ++ advisorVisitsList rest parent (i + 1)
end

/-! ## Plan tree indexer (src/ui/mod.rs) -/

/-- A UI node of the execution plan tree (struct PlanNodeUI): expansion
state, child indices into the owning sequence, and a copy of the source
plan node. -/
structure PlanNodeUI where
  expanded : Bool
  children : List Nat
  plan_node : PlanNode

/-- The flat index-addressed execution plan tree (struct PlanTree). -/
structure PlanTree where
  nodes : List PlanNodeUI
  root_indices : List Nat
  last_plan_hash : Option Nat

/-- PlanTree::default: empty node sequence, no roots, no hash. -/
def PlanTree.default : PlanTree :=
  { nodes := [], root_indices := [], last_plan_hash := none }

/-- The get_mut / assignment step of build_plan_tree_ui: replace the child
list of the entry at the given index, a no-op when the index is out of
bounds (the source skips silently in that impossible case). -/
def updateChildren (l : List PlanNodeUI) (i : Nat) (cs : List Nat) : List PlanNodeUI :=
  match l.get? i with
  | some e => l.set i { e with children := cs }
  | none => l

mutual
/--
build_plan_tree_ui: appends the node (expanded, no children yet), recurses
into each child passing the current index as parent, then fixes up the
child-index list of the current entry; root calls (parent_index none)
append the index to root_indices.  The third argument mirrors the unused
_node_index parameter of the source.  Returns the updated tree and the
index assigned to the node.
-/
def build_plan_tree_ui : PlanNode → PlanTree → Nat → Option Nat → PlanTree × Nat
  | .mk nt rn al sc tc ast att ar alp ps ex, tree_ui, _node_index, parent_index =>
      let node := PlanNode.mk nt rn al sc tc ast att ar alp ps ex
      let current_index := tree_ui.nodes.length
      let tree1 : PlanTree :=
        { tree_ui with
            nodes := tree_ui.nodes ++
              [{ expanded := true, children := [], plan_node := node }] }
      let res := buildChildrenUI ps tree1 current_index
      let tree3 : PlanTree :=
        { res.1 with nodes := updateChildren res.1.nodes current_index res.2 }
      let tree4 : PlanTree :=
        if parent_index.isNone then
          { tree3 with root_indices := tree3.root_indices ++ [current_index] }
        else tree3
      (tree4, current_index)

/-- The child loop of build_plan_tree_ui: builds each child in order with
the parent index set, collecting the returned child indices. -/
def buildChildrenUI : List PlanNode → PlanTree → Nat → PlanTree × List Nat
  | [], tree_ui, _ => (tree_ui, [])
  | child :: rest, tree_ui, current_index =>
      let r1 := build_plan_tree_ui child tree_ui current_index (some current_index)
      let r2 := buildChildrenUI rest r1.1 current_index
      (r2.1, r1.2 :: r2.2)
end

/-- The indices at which the elements of a child list land when the first
lands at i and each subtree occupies a contiguous block of entries. -/
def uiChildIdxs : List PlanNode → Nat → List Nat
  | [], _ => []
  | c :: rest, i => i :: uiChildIdxs rest (i + (preorder c).length)

mutual
/-- The block of UI entries that building a subtree appends when the
subtree root lands at index i: the root entry (expanded, children at their
computed indices) followed by the blocks of the children. -/
def uiSegment : PlanNode → Nat → List PlanNodeUI
  | .mk nt rn al sc tc ast att ar alp ps ex, i =>
      { expanded := true
        children := uiChildIdxs ps (i + 1)
        plan_node := PlanNode.mk nt rn al sc tc ast att ar alp ps ex } ::
        uiSegmentList ps (i + 1)

def uiSegmentList : List PlanNode → Nat → List PlanNodeUI
  | [], _ => []
  | c :: rest, i => uiSegment c i ++ uiSegmentList rest (i + (preorder c).length)
end

/-- Total number of occurrences of index j in the child lists of a block
of entries. -/
def childOcc (es : List PlanNodeUI) (j : Nat) : Nat :=
  (es.map (fun e => e.children.count j)).sum

/-! ## Error types (src/error.rs, src/db/error.rs) -/

/-- Database-layer errors (enum DbError); the Json and Io wrapper variants
carry foreign payloads and are outside the modelled core. -/
inductive DbError where
  | connection (msg : String)
  | query (msg : String)
  | config (msg : String)
  | planParsing (msg : String)
  | invalidQuery (msg : String)
deriving DecidableEq

/-- Application-level errors (enum SqlTraceError), same restriction. -/
inductive SqlTraceError where
  | database (msg : String)
  | config (msg : String)
  | planError (msg : String)
  | invalidQuery (msg : String)
deriving DecidableEq

/-- impl From of DbError for SqlTraceError. -/
def dbToSqlTrace : DbError → SqlTraceError
  | .connection msg => .database msg
  | .query msg => .database msg
  | .config msg => .config msg
  | .planParsing msg => .planError msg
  | .invalidQuery msg => .invalidQuery msg

/-! ## EXPLAIN JSON ingestion (Database::explain of src/db/mod.rs)

The database I/O (query validation, EXPLAIN execution, row extraction) is
abstracted away; explain_plan_json models what explain does with the
fetched QUERY PLAN JSON value.  Parsing into ExecutionPlan and PlanNode
follows the serde derive semantics of the field attributes in
src/db/models/plan.rs: renamed required fields, optional fields accepting
null or absence, Plans defaulting to the empty list, u64 fields requiring
non-negative integers, and all remaining keys flattened into extra.
Error message texts reproduce the source without the formatted suffixes
and without quote characters.
-/

/-- serde u64 deserialization from a JSON number. -/
def jsonU64 : Json → Option Nat
  | .num q => if q.den = 1 ∧ 0 ≤ q.num then some q.num.toNat else none
  | _ => none

/-- serde f64 deserialization from a JSON number. -/
def jsonF64 : Json → Option ℚ
  | .num q => some q
  | _ => none

/-- serde deserialization of an optional String field. -/
def jsonOptString (fields : List (String × Json)) (key : String) :
    Option (Option String) :=
  match fields.lookup key with
  | none => some none
  | some .null => some none
  | some (.str s) => some (some s)
  | some _ => none

/-- serde deserialization of an optional f64 field. -/
def jsonOptF64 (fields : List (String × Json)) (key : String) :
    Option (Option ℚ) :=
  match fields.lookup key with
  | none => some none
  | some .null => some none
  | some (.num q) => some (some q)
  | some _ => none

/-- The keys of PlanNode promoted to named fields; everything else is
flattened into extra. -/
def planNodeKeys : List String :=
  ["Node Type", "Relation Name", "Alias", "Startup Cost", "Total Cost",
   "Actual Startup Time", "Actual Total Time", "Actual Rows",
   "Actual Loops", "Plans"]

mutual
/-- Fuel-indexed serde deserialization of PlanNode; the fuel only bounds
the recursion depth and is instantiated with an upper bound. -/
def parsePlanNodeF : Nat → Json → Option PlanNode
  | 0, _ => none
  | fuel + 1, j =>
      match j with
      | .obj fields =>
          match fields.lookup "Node Type" with
          | some (.str nt) =>
              (jsonOptString fields "Relation Name").bind fun rn =>
              (jsonOptString fields "Alias").bind fun al =>
              ((fields.lookup "Startup Cost").bind jsonF64).bind fun sc =>
              ((fields.lookup "Total Cost").bind jsonF64).bind fun tc =>
              (jsonOptF64 fields "Actual Startup Time").bind fun ast =>
              ((fields.lookup "Actual Total Time").bind jsonF64).bind fun att =>
              ((fields.lookup "Actual Rows").bind jsonU64).bind fun ar =>
              ((fields.lookup "Actual Loops").bind jsonU64).bind fun alp =>
              (match fields.lookup "Plans" with
               | none => some []
               | some (.arr xs) => parsePlanNodesF fuel xs
               | some _ => none).bind fun ps =>
              some (.mk nt rn al sc tc ast att ar alp ps
                (fields.filter (fun kv => !(planNodeKeys.contains kv.1))))
          | _ => none
      | _ => none

def parsePlanNodesF : Nat → List Json → Option (List PlanNode)
  | _, [] => some []
  | 0, _ :: _ => none
  | fuel + 1, x :: xs =>
      (parsePlanNodeF fuel x).bind fun n =>
      (parsePlanNodesF fuel xs).bind fun ns =>
      some (n :: ns)
end

mutual
/-- Structural size of a JSON value, used only as a fuel bound. -/
def jsonSize : Json → Nat
  | .null => 1
  | .bool _ => 1
  | .num _ => 1
  | .str _ => 1
  | .arr xs => 1 + jsonSizeList xs
  | .obj fields => 1 + jsonSizeFields fields

def jsonSizeList : List Json → Nat
  | [] => 0
  | x :: xs => jsonSize x + jsonSizeList xs

def jsonSizeFields : List (String × Json) → Nat
  | [] => 0
  | kv :: rest => jsonSize kv.2 + jsonSizeFields rest
end

/-- serde deserialization of PlanNode; the structural size dominates the
nesting depth, so the fuel never runs out on the value itself. -/
def parsePlanNode (j : Json) : Option PlanNode :=
  parsePlanNodeF (jsonSize j) j

/-- serde deserialization of ExecutionPlan from the response object explain
assembles (keys root, planning_time, execution_time; the two times are
required f64 fields, so their absence is a deserialization failure). -/
def parseExecutionPlanJson (j : Json) : Option ExecutionPlan :=
  match j with
  | .obj fields =>
      match fields.lookup "root" with
      | some rootJson =>
          (parsePlanNode rootJson).bind fun root =>
          ((fields.lookup "planning_time").bind jsonF64).bind fun pt =>
          ((fields.lookup "execution_time").bind jsonF64).bind fun et =>
          some { root := root, planning_time := pt, execution_time := et }
      | none => none
  | _ => none

/--
The JSON dispatch of Database::explain on the fetched QUERY PLAN value:
a non-empty array is taken by its first element, whose Plan key is
re-assembled into a response object and deserialized; a first element
without Plan, or any non-array or empty-array value, reports an explicit
top-level string error field as a database error and otherwise fails with
a parsing error.
-/
def explain_plan_json (plan_json : Json) : Except SqlTraceError ExecutionPlan :=
  match plan_json with
  | .arr (first :: _) =>
      match first.get "Plan" with
      | some plan_obj =>
          let response :=
            [("root", plan_obj)] ++
            (match first.get "Planning Time" with
             | some v => [("planning_time", v)]
             | none => []) ++
            (match first.get "Execution Time" with
             | some v => [("execution_time", v)]
             | none => [])
          match parseExecutionPlanJson (.obj response) with
          | some exec_plan => .ok exec_plan
          | none => .error (dbToSqlTrace (.planParsing "Failed to format execution plan"))
      | none =>
          match (first.get "error").bind Json.asStr with
          | some _ => .error (dbToSqlTrace (.planParsing "Database error"))
          | none => .error (dbToSqlTrace (.planParsing "No Plan field in EXPLAIN output"))
  | _ =>
      match (plan_json.get "error").bind Json.asStr with
      | some _ => .error (dbToSqlTrace (.planParsing "Database error"))
      | none => .error (dbToSqlTrace (.planParsing "Unexpected EXPLAIN output format"))

/-! ## Benchmark engine (src/benchmark/mod.rs)

The plan source (self.db.explain) and the wall clock are abstracted into a
RunEnv: source gives the outcome of the k-th plan-source call of the
benchmark, elapsed gives the wall-clock nanoseconds measured by the j-th
invocation of execute_single_run (warmup invocations first).  The
benchmark functions additionally thread the plan-source call counter k,
which exists only to let theorems speak about how many calls are made.
-/

/-- Configuration for benchmark runs (struct BenchmarkConfig). -/
structure BenchmarkConfig where
  warmup_runs : Nat
  benchmark_runs : Nat
  timeout_seconds : Nat
  include_execution_plans : Bool
  include_advisor_analysis : Bool

/-- BenchmarkConfig::default. -/
def BenchmarkConfig.default : BenchmarkConfig :=
  { warmup_runs := 2
    benchmark_runs := 5
    timeout_seconds := 30
    include_execution_plans := true
    include_advisor_analysis := true }

/-- Single benchmark run result (struct BenchmarkRun); the timestamp field
records the wall clock and carries no logic, so it is omitted. -/
structure BenchmarkRun where
  execution_time : Nat
  execution_plan : Option ExecutionPlan
  advisor_analysis : Option AdvisorAnalysis

/-- Statistical analysis of benchmark runs (struct BenchmarkStatistics);
all timing fields are nanosecond counts. -/
structure BenchmarkStatistics where
  avg_execution_time : Nat
  min_execution_time : Nat
  max_execution_time : Nat
  std_deviation : Nat
  p95_execution_time : Nat
  successful_runs : Nat
  failed_runs : Nat
  avg_cost : Option ℚ
  avg_advisor_score : Option ℚ

/-- Complete benchmark result (struct BenchmarkResult). -/
structure BenchmarkResult where
  query : String
  runs : List BenchmarkRun
  statistics : BenchmarkStatistics
  config : BenchmarkConfig

/-- struct BenchmarkSuite: the database handle is abstracted into RunEnv,
the advisor into its configuration. -/
structure BenchmarkSuite where
  advisor : AdvisorConfig
  config : BenchmarkConfig

/-- The environment a benchmark interacts with: plan-source call outcomes
by call number, and measured elapsed time by invocation number. -/
structure RunEnv where
  source : Nat → Except SqlTraceError ExecutionPlan
  elapsed : Nat → Nat

/-- Truncation of a non-negative rational to an integer (the as-usize and
as-u64 casts applied to non-negative f64 values). -/
def ratTruncToNat (q : ℚ) : Nat :=
  (q.num / (q.den : ℤ)).toNat

/-- calculate_average_duration: the truncated arithmetic mean of the
nanosecond counts, 0 for the empty list. -/
def calculate_average_duration (durations : List Nat) : Nat :=
  if durations.isEmpty then 0
  else durations.sum / durations.length

/-- calculate_std_deviation: sample variance with the n-1 divisor over the
deviations from the given mean, 0 when fewer than two durations; the f64
square root truncated to u64 is the integer square root of the truncated
variance, since floor commutes with the square root on integer
thresholds. -/
def calculate_std_deviation (durations : List Nat) (mean : Nat) : Nat :=
  if durations.length < 2 then 0
  else
    let variance : ℚ :=
      (durations.map (fun d => ((d : ℚ) - (mean : ℚ)) * ((d : ℚ) - (mean : ℚ)))).sum /
        ((durations.length - 1 : Nat) : ℚ)
    Nat.sqrt (ratTruncToNat variance)

/-- calculate_percentile: nearest-rank value at the truncated index
percentile times (n - 1) of the ascending-sorted durations, 0 for the
empty list.  Vec::sort is modelled by insertion sort (any stable ascending
sort); the index is within bounds for percentile in [0, 1], getD models
the then never-failing indexing. -/
def calculate_percentile (durations : List Nat) (percentile : ℚ) : Nat :=
  if durations.isEmpty then 0
  else
    let sorted_durations := List.insertionSort (fun a b => a ≤ b) durations
    let index := ratTruncToNat (percentile * ((durations.length - 1 : Nat) : ℚ))
    sorted_durations.getD index 0

/-- calculate_average_cost: mean root total_cost over the runs that
captured a plan, absent when none did. -/
def calculate_average_cost (runs : List BenchmarkRun) : Option ℚ :=
  let costs := runs.filterMap
    (fun run => run.execution_plan.map (fun plan => plan.root.total_cost))
  if costs.isEmpty then none
  else some (costs.sum / (costs.length : ℚ))

/-- calculate_average_advisor_score: mean performance score over the runs
that captured an analysis, absent when none did. -/
def calculate_average_advisor_score (runs : List BenchmarkRun) : Option ℚ :=
  let scores := runs.filterMap
    (fun run => run.advisor_analysis.map (fun a => (a.performance_score : ℚ)))
  if scores.isEmpty then none
  else some (scores.sum / (scores.length : ℚ))

/-- calculate_statistics over the successful runs and the failure count;
0.95 is the rational value of the f64 literal. -/
def calculate_statistics (runs : List BenchmarkRun) (failed_runs : Nat) :
    BenchmarkStatistics :=
  let execution_times := runs.map (fun run => run.execution_time)
  let avg_execution_time := calculate_average_duration execution_times
  { avg_execution_time := avg_execution_time
    min_execution_time := execution_times.min?.getD 0
    max_execution_time := execution_times.max?.getD 0
    std_deviation := calculate_std_deviation execution_times avg_execution_time
    p95_execution_time := calculate_percentile execution_times (19 / 20)
    successful_runs := runs.length
    failed_runs := failed_runs
    avg_cost := calculate_average_cost runs
    avg_advisor_score := calculate_average_advisor_score runs }

/--
execute_single_run at invocation j with plan-source call counter k: when
the configuration includes execution plans, one plan-source call is made
and an error aborts the run (the question-mark propagation); otherwise no
call is made.  Advisor analysis maps over the captured plan only when
enabled.  Returns the run outcome and the new call counter.
-/
def execute_single_run (suite : BenchmarkSuite) (env : RunEnv) (j k : Nat) :
    Except SqlTraceError BenchmarkRun × Nat :=
  match (if suite.config.include_execution_plans then
           match env.source k with
           | .error e => (Except.error e, k + 1)
           | .ok plan => (Except.ok (some plan), k + 1)
         else (Except.ok none, k)) with
  | (.error e, k2) => (.error e, k2)
  | (.ok execution_plan, k2) =>
      let execution_time := env.elapsed j
      let advisor_analysis :=
        if suite.config.include_advisor_analysis then
          execution_plan.map (fun plan => analyze_plan suite.advisor plan)
        else none
      (.ok { execution_time := execution_time
             execution_plan := execution_plan
             advisor_analysis := advisor_analysis }, k2)

/-- The warmup loop of benchmark_query: warmup_runs invocations whose
results and errors are discarded; only the call counter survives. -/
def warmupPhase (suite : BenchmarkSuite) (env : RunEnv) : Nat :=
  (List.range suite.config.warmup_runs).foldl
    (fun k j => (execute_single_run suite env j k).2) 0

/-- One iteration of the measured loop: a successful run is pushed, a
failing one increments the failure counter. -/
def measuredStep (suite : BenchmarkSuite) (env : RunEnv)
    (acc : List BenchmarkRun × Nat × Nat) (i : Nat) :
    List BenchmarkRun × Nat × Nat :=
  match execute_single_run suite env (suite.config.warmup_runs + i) acc.2.2 with
  | (.ok run, k2) => (acc.1 ++ [run], acc.2.1, k2)
  | (.error _, k2) => (acc.1, acc.2.1 + 1, k2)

/-- The measured loop of benchmark_query: benchmark_runs iterations
starting after the warmup, accumulating runs, failures and the call
counter. -/
def measuredPhase (suite : BenchmarkSuite) (env : RunEnv) :
    List BenchmarkRun × Nat × Nat :=
  (List.range suite.config.benchmark_runs).foldl (measuredStep suite env)
    ([], 0, warmupPhase suite env)

/-- benchmark_query: warmup, measured runs, then either the aggregate
all-runs-failed error or the result with statistics.  The second component
is the total number of plan-source calls made. -/
def benchmark_query (suite : BenchmarkSuite) (env : RunEnv) (query : String) :
    Except SqlTraceError BenchmarkResult × Nat :=
  let m := measuredPhase suite env
  if m.1.isEmpty then (.error (.database "All benchmark runs failed"), m.2.2)
  else
    (.ok { query := query
           runs := m.1
           statistics := calculate_statistics m.1 m.2.1
           config := suite.config }, m.2.2)

/-- Plan-source calls each execute_single_run invocation makes. -/
def sourceCallsPerRun (suite : BenchmarkSuite) : Nat :=
  if suite.config.include_execution_plans then 1 else 0

/-- The call counter at the start of measured iteration i. -/
def callCounterAt (suite : BenchmarkSuite) (i : Nat) : Nat :=
  (suite.config.warmup_runs + i) * sourceCallsPerRun suite

/-- The outcome of measured iteration i. -/
def runResult (suite : BenchmarkSuite) (env : RunEnv) (i : Nat) :
    Except SqlTraceError BenchmarkRun :=
  (execute_single_run suite env (suite.config.warmup_runs + i)
    (callCounterAt suite i)).1

/-! ## Benchmark comparison (compare_benchmarks) -/

/-- Statistical significance levels (enum StatisticalSignificance). -/
inductive StatisticalSignificance where
  | highlySignificant
  | significant
  | marginallySignificant
  | notSignificant
deriving DecidableEq

open Classical in
/--
calculate_statistical_significance: fewer than 3 successful runs on either
side is NotSignificant; the pooled standard deviation is the plain average
of the two standard deviations, 0 of which is NotSignificant; the t-like
statistic maps through the fixed thresholds.  The f64 arithmetic,
including sqrt, is modelled exactly over the reals.
-/
noncomputable def calculate_statistical_significance
    (result_a result_b : BenchmarkResult) : StatisticalSignificance :=
  let n_a : ℝ := result_a.statistics.successful_runs
  let n_b : ℝ := result_b.statistics.successful_runs
  if n_a < 3 ∨ n_b < 3 then .notSignificant
  else
    let mean_diff : ℝ :=
      |(result_a.statistics.avg_execution_time : ℝ) -
        (result_b.statistics.avg_execution_time : ℝ)|
    let pooled_std : ℝ :=
      ((result_a.statistics.std_deviation : ℝ) +
        (result_b.statistics.std_deviation : ℝ)) / 2
    if pooled_std = 0 then .notSignificant
    else
      let t_stat := mean_diff / (pooled_std * Real.sqrt (1 / n_a + 1 / n_b))
      if t_stat > 2.576 then .highlySignificant
      else if t_stat > 1.96 then .significant
      else if t_stat > 1.645 then .marginallySignificant
      else .notSignificant

open Classical in
/--
The significance computation as the specification words it: if either side
has fewer than 3 successful runs, NotSignificant; otherwise with
pooledStddev the simple average of the two standard deviations,
NotSignificant when pooledStddev is 0, else the statistic
t = abs(meanA - meanB) / (pooledStddev * sqrt(1/nA + 1/nB)) mapped by the
fixed thresholds 2.576, 1.96, 1.645.  Stated over the run counts as
natural numbers; comparing with calculate_statistical_significance, which
compares the f64-converted counts.
-/
noncomputable def specSignificance (a b : BenchmarkResult) :
    StatisticalSignificance :=
  if a.statistics.successful_runs < 3 ∨ b.statistics.successful_runs < 3 then
    .notSignificant
  else
    let pooledStddev : ℝ :=
      ((a.statistics.std_deviation : ℝ) + (b.statistics.std_deviation : ℝ)) / 2
    if pooledStddev = 0 then .notSignificant
    else
      let nA : ℝ := a.statistics.successful_runs
      let nB : ℝ := b.statistics.successful_runs
      let t : ℝ :=
        |(a.statistics.avg_execution_time : ℝ) -
          (b.statistics.avg_execution_time : ℝ)| /
          (pooledStddev * Real.sqrt (1 / nA + 1 / nB))
      if 2.576 < t then .highlySignificant
      else if 1.96 < t then .significant
      else if 1.645 < t then .marginallySignificant
      else .notSignificant

/-! ## Concrete instances used by counterexamples and witnesses -/

/-- A leaf plan node with the given type, total cost and row count. -/
def mkLeaf (nt : String) (tc : ℚ) (rows : Nat) : PlanNode :=
  .mk nt none none 0 tc none 0 rows 1 [] []

/-- A four-node plan: the second root child is an expensive Seq Scan and
the first root child has one child of its own, so the recursive child
numbering of the advisor (2 for the Seq Scan) differs from its pre-order
position (3). -/
def c6Root : PlanNode :=
  .mk "Root" none none 0 0 none 0 0 1
    [.mk "A" none none 0 0 none 0 0 1 [mkLeaf "A1" 0 0] [],
     mkLeaf "Seq Scan" 5000 0] []

def c6Plan : ExecutionPlan :=
  { root := c6Root, planning_time := 1, execution_time := 1 }

/-- A one-node plan whose root is an expensive Seq Scan. -/
def seqScanPlan : ExecutionPlan :=
  { root := mkLeaf "Seq Scan" 5000 0, planning_time := 1, execution_time := 1 }

/-- The call of the renderer: build the UI tree for a plan root into a
fresh default PlanTree, as draw does after clearing the tree. -/
def builtFromRoot (root : PlanNode) : PlanTree × Nat :=
  build_plan_tree_ui root PlanTree.default 0 none

/-- The fields of a bare single-object EXPLAIN response. -/
def c5PlanObj : Json :=
  .obj [("Node Type", .str "Seq Scan"), ("Relation Name", .str "users"),
        ("Startup Cost", .num 0), ("Total Cost", .num 5),
        ("Actual Total Time", .num 1), ("Actual Rows", .num 3),
        ("Actual Loops", .num 1)]

def c5BareFields : List (String × Json) :=
  [("Plan", c5PlanObj), ("Planning Time", .num 1), ("Execution Time", .num 2)]

/-- The bare single-object form: one object with Plan, Planning Time,
Execution Time. -/
def c5Bare : Json := .obj c5BareFields

/-- The direct Plan-object form. -/
def c5Direct : Json := .obj [("Plan", c5PlanObj)]

/-- A benchmark suite configured without execution plans (default config
otherwise: 2 warmup runs, 5 benchmark runs). -/
def noPlanSuite : BenchmarkSuite :=
  { advisor := AdvisorConfig.default
    config := { BenchmarkConfig.default with include_execution_plans := false } }

/-- An environment whose plan source always fails and whose measured
elapsed time is constant. -/
def errorEnv : RunEnv :=
  { source := fun _ => .error (.database "connection refused")
    elapsed := fun _ => 100 }

/-- Three runs with elapsed times 100, 300 and 200 nanoseconds. -/
def c9Runs : List BenchmarkRun :=
  [{ execution_time := 100, execution_plan := none, advisor_analysis := none },
   { execution_time := 300, execution_plan := none, advisor_analysis := none },
   { execution_time := 200, execution_plan := none, advisor_analysis := none }]

/-! ## Lemmas -/

mutual
theorem preorder_length_pos (n : PlanNode) : 0 < (preorder n).length := by
  match n with
  | .mk nt rn al sc tc ast att ar alp ps ex => simp [preorder]

theorem preorderList_length_ge (ns : List PlanNode) :
    ns.length ≤ (preorderList ns).length := by
  match ns with
  | [] => simp [preorderList]
  | c :: rest =>
    have h1 := preorder_length_pos c
    have h2 := preorderList_length_ge rest
    simp only [preorderList, List.length_append, List.length_cons]
    omega
end

mutual
theorem analyze_node_suggestions (cfg : AdvisorConfig) (n : PlanNode)
    (st : List OptimizationSuggestion × List (String × ℚ)) (idx : Nat) :
    (analyze_node cfg n st idx).1 =
      st.1 ++ (advisorVisits n idx).flatMap (fun p => rulesAt cfg p.1 p.2) := by
  match n with
  | .mk nt rn al sc tc ast att ar alp ps ex =>
    rw [analyze_node, advisorVisits]
    rw [analyzeChildren_suggestions cfg ps _ idx 0]
    simp [List.append_assoc]

theorem analyzeChildren_suggestions (cfg : AdvisorConfig) (ns : List PlanNode)
    (st : List OptimizationSuggestion × List (String × ℚ)) (parent i : Nat) :
    (analyzeChildren cfg ns st parent i).1 =
      st.1 ++ (advisorVisitsList ns parent i).flatMap (fun p => rulesAt cfg p.1 p.2) := by
  match ns with
  | [] => simp [analyzeChildren, advisorVisitsList]
  | c :: rest =>
    rw [analyzeChildren, advisorVisitsList]
    rw [analyzeChildren_suggestions cfg rest _ parent (i + 1)]
    rw [analyze_node_suggestions cfg c st (parent + i + 1)]
    simp [List.append_assoc]
end

mutual
theorem advisorVisits_idx_bound (n : PlanNode) (p : Nat) (m : PlanNode) (k : Nat)
    (h : (m, k) ∈ advisorVisits n p) :
    p ≤ k ∧ k < p + (preorder n).length := by
  match n with
  | .mk nt rn al sc tc ast att ar alp ps ex =>
    rw [advisorVisits] at h
    rcases List.mem_cons.mp h with h0 | h1
    · have hk : k = p := congrArg Prod.snd h0
      have := preorder_length_pos (.mk nt rn al sc tc ast att ar alp ps ex)
      omega
    · have hb := advisorVisitsList_idx_bound ps p 0 m k h1
      simp only [preorder, List.length_cons]
      omega

theorem advisorVisitsList_idx_bound (ns : List PlanNode) (parent i : Nat)
    (m : PlanNode) (k : Nat) (h : (m, k) ∈ advisorVisitsList ns parent i) :
    parent + i < k ∧ k < parent + i + 1 + (preorderList ns).length := by
  match ns with
  | [] => rw [advisorVisitsList] at h; exact absurd h (List.not_mem_nil _)
  | c :: rest =>
    rw [advisorVisitsList] at h
    rcases List.mem_append.mp h with h0 | h1
    · have hb := advisorVisits_idx_bound c (parent + i + 1) m k h0
      have hle : (preorder c).length ≤ (preorderList (c :: rest)).length := by
        simp [preorderList]
      omega
    · have hb := advisorVisitsList_idx_bound rest parent (i + 1) m k h1
      have hpos := preorder_length_pos c
      have : (preorderList (c :: rest)).length =
          (preorder c).length + (preorderList rest).length := by
        simp [preorderList]
      omega
end

theorem check_sequential_scan_node_index (cfg : AdvisorConfig) (n : PlanNode)
    (idx : Nat) (s : OptimizationSuggestion) (h : s ∈ check_sequential_scan cfg n idx) :
    s.node_index = some idx := by
  unfold check_sequential_scan at h
  split at h <;> simp_all

theorem check_expensive_operations_node_index (cfg : AdvisorConfig) (n : PlanNode)
    (idx : Nat) (s : OptimizationSuggestion) (h : s ∈ check_expensive_operations cfg n idx) :
    s.node_index = some idx := by
  unfold check_expensive_operations at h
  split at h <;> simp_all

theorem check_nested_loops_node_index (cfg : AdvisorConfig) (n : PlanNode)
    (idx : Nat) (s : OptimizationSuggestion) (h : s ∈ check_nested_loops cfg n idx) :
    s.node_index = some idx := by
  unfold check_nested_loops at h
  split at h <;> simp_all

theorem check_large_sorts_node_index (cfg : AdvisorConfig) (n : PlanNode)
    (idx : Nat) (s : OptimizationSuggestion) (h : s ∈ check_large_sorts cfg n idx) :
    s.node_index = some idx := by
  unfold check_large_sorts at h
  split at h <;> simp_all

theorem check_missing_indexes_node_index (cfg : AdvisorConfig) (n : PlanNode)
    (idx : Nat) (s : OptimizationSuggestion) (h : s ∈ check_missing_indexes cfg n idx) :
    s.node_index = some idx := by
  unfold check_missing_indexes at h
  split at h
  · simp_all
  · split at h <;> simp_all

theorem check_inefficient_joins_node_index (cfg : AdvisorConfig) (n : PlanNode)
    (idx : Nat) (s : OptimizationSuggestion) (h : s ∈ check_inefficient_joins cfg n idx) :
    s.node_index = some idx := by
  unfold check_inefficient_joins at h
  split at h <;> simp_all

theorem rulesAt_node_index (cfg : AdvisorConfig) (n : PlanNode) (idx : Nat)
    (s : OptimizationSuggestion) (h : s ∈ rulesAt cfg n idx) :
    s.node_index = some idx := by
  unfold rulesAt at h
  rcases List.mem_append.mp h with h | h
  rotate_left
  · exact check_inefficient_joins_node_index cfg n idx s h
  rcases List.mem_append.mp h with h | h
  rotate_left
  · exact check_missing_indexes_node_index cfg n idx s h
  rcases List.mem_append.mp h with h | h
  rotate_left
  · exact check_large_sorts_node_index cfg n idx s h
  rcases List.mem_append.mp h with h | h
  rotate_left
  · exact check_nested_loops_node_index cfg n idx s h
  rcases List.mem_append.mp h with h | h
  · exact check_sequential_scan_node_index cfg n idx s h
  · exact check_expensive_operations_node_index cfg n idx s h

theorem foldl_severity_sub (l : List OptimizationSuggestion) (a : Nat) :
    l.foldl (fun score s => score - severityDeduction s.severity) a =
      a - (l.map (fun s => severityDeduction s.severity)).sum := by
  induction l generalizing a with
  | nil => simp
  | cons x xs ih => simp [List.foldl_cons, ih, Nat.sub_sub]

theorem severity_sum_counts (l : List OptimizationSuggestion) :
    (l.map (fun s => severityDeduction s.severity)).sum =
      20 * l.countP (fun s => s.severity = Severity.high) +
      10 * l.countP (fun s => s.severity = Severity.medium) +
      5 * l.countP (fun s => s.severity = Severity.low) := by
  induction l with
  | nil => simp
  | cons x xs ih =>
    simp only [List.map_cons, List.sum_cons, List.countP_cons, ih]
    rcases h : x.severity <;> simp [h, severityDeduction] <;> omega

/-! ## Characterization of the indexer build -/

theorem get?_append_cons {α : Type} (xs : List α) (e : α) (ys : List α) :
    (xs ++ e :: ys).get? xs.length = some e := by
  induction xs with
  | nil => rfl
  | cons x xs ih => simpa using ih

theorem set_append_cons {α : Type} (xs : List α) (e v : α) (ys : List α) :
    (xs ++ e :: ys).set xs.length v = xs ++ v :: ys := by
  induction xs with
  | nil => rfl
  | cons x xs ih => simp [List.set_cons_succ, ih]

theorem updateChildren_append (xs : List PlanNodeUI) (e : PlanNodeUI)
    (ys : List PlanNodeUI) (cs : List Nat) :
    updateChildren (xs ++ e :: ys) xs.length cs =
      xs ++ { e with children := cs } :: ys := by
  simp only [updateChildren, get?_append_cons, set_append_cons]

theorem append_singleton_append {α : Type} (xs : List α) (e : α) (ys : List α) :
    (xs ++ [e]) ++ ys = xs ++ e :: ys := by
  simp

mutual
theorem uiSegment_length (n : PlanNode) (i : Nat) :
    (uiSegment n i).length = (preorder n).length := by
  match n with
  | .mk nt rn al sc tc ast att ar alp ps ex =>
    simp only [uiSegment, preorder, List.length_cons]
    rw [uiSegmentList_length]

theorem uiSegmentList_length (ns : List PlanNode) (i : Nat) :
    (uiSegmentList ns i).length = (preorderList ns).length := by
  match ns with
  | [] => simp [uiSegmentList, preorderList]
  | c :: rest =>
    simp only [uiSegmentList, preorderList, List.length_append]
    rw [uiSegment_length, uiSegmentList_length]
end

mutual
theorem build_plan_tree_ui_spec (n : PlanNode) (t : PlanTree) (ni : Nat)
    (p : Option Nat) :
    build_plan_tree_ui n t ni p =
      ({ nodes := t.nodes ++ uiSegment n t.nodes.length
         root_indices :=
           t.root_indices ++ (if p.isNone then [t.nodes.length] else [])
         last_plan_hash := t.last_plan_hash }, t.nodes.length) := by
  match n with
  | .mk nt rn al sc tc ast att ar alp ps ex =>
    simp only [build_plan_tree_ui]
    rw [buildChildrenUI_spec ps _ _]
    simp only [append_singleton_append, List.length_append, List.length_cons,
      List.length_nil, Nat.zero_add]
    rw [updateChildren_append]
    rcases p <;> simp [uiSegment]

theorem buildChildrenUI_spec (ns : List PlanNode) (t : PlanTree) (ci : Nat) :
    buildChildrenUI ns t ci =
      ({ nodes := t.nodes ++ uiSegmentList ns t.nodes.length
         root_indices := t.root_indices
         last_plan_hash := t.last_plan_hash }, uiChildIdxs ns t.nodes.length) := by
  match ns with
  | [] => simp [buildChildrenUI, uiSegmentList, uiChildIdxs]
  | c :: rest =>
    simp only [buildChildrenUI]
    rw [build_plan_tree_ui_spec c t ci (some ci)]
    rw [buildChildrenUI_spec rest _ ci]
    simp [List.length_append, uiSegment_length, uiSegmentList, uiChildIdxs,
      List.append_assoc]
end

mutual
theorem uiSegment_map_plan_node (n : PlanNode) (i : Nat) :
    (uiSegment n i).map PlanNodeUI.plan_node = preorder n := by
  match n with
  | .mk nt rn al sc tc ast att ar alp ps ex =>
    simp only [uiSegment, preorder, List.map_cons]
    rw [uiSegmentList_map_plan_node]

theorem uiSegmentList_map_plan_node (ns : List PlanNode) (i : Nat) :
    (uiSegmentList ns i).map PlanNodeUI.plan_node = preorderList ns := by
  match ns with
  | [] => simp [uiSegmentList, preorderList]
  | c :: rest =>
    simp only [uiSegmentList, preorderList, List.map_append]
    rw [uiSegment_map_plan_node, uiSegmentList_map_plan_node]
end

theorem uiChildIdxs_bounds (ns : List PlanNode) (i : Nat) (j : Nat)
    (h : j ∈ uiChildIdxs ns i) :
    i ≤ j ∧ j < i + (preorderList ns).length := by
  induction ns generalizing i with
  | nil => simp [uiChildIdxs] at h
  | cons c rest ih =>
    have hp := preorder_length_pos c
    have hlen : (preorderList (c :: rest)).length =
        (preorder c).length + (preorderList rest).length := by
      simp [preorderList]
    simp only [uiChildIdxs, List.mem_cons] at h
    rcases h with rfl | h
    · omega
    · have hb := ih (i + (preorder c).length) h
      omega

theorem uiChildIdxs_count (ns : List PlanNode) (i : Nat) (j : Nat) :
    (uiChildIdxs ns i).count j = if j ∈ uiChildIdxs ns i then 1 else 0 := by
  induction ns generalizing i with
  | nil => simp [uiChildIdxs]
  | cons c rest ih =>
    have hp := preorder_length_pos c
    simp only [uiChildIdxs, List.count_cons, List.mem_cons]
    rw [ih (i + (preorder c).length)]
    by_cases hj : j = i
    · subst hj
      have hnot : j ∉ uiChildIdxs rest (j + (preorder c).length) := by
        intro hmem
        have hb := uiChildIdxs_bounds rest (j + (preorder c).length) j hmem
        omega
      simp [hnot]
    · have hj2 : ¬i = j := fun h => hj h.symm
      simp [hj, hj2]

mutual
theorem uiSegment_children_bound (n : PlanNode) (i : Nat) (e : PlanNodeUI)
    (he : e ∈ uiSegment n i) (j : Nat) (hj : j ∈ e.children) :
    i < j ∧ j < i + (preorder n).length := by
  match n with
  | .mk nt rn al sc tc ast att ar alp ps ex =>
    have hlen : (preorder (PlanNode.mk nt rn al sc tc ast att ar alp ps ex)).length =
        1 + (preorderList ps).length := by
      simp [preorder]
      omega
    rw [uiSegment] at he
    rcases List.mem_cons.mp he with rfl | he2
    · have hb := uiChildIdxs_bounds ps (i + 1) j (by simpa using hj)
      omega
    · have hb := uiSegmentList_children_bound ps (i + 1) e he2 j hj
      omega

theorem uiSegmentList_children_bound (ns : List PlanNode) (i : Nat)
    (e : PlanNodeUI) (he : e ∈ uiSegmentList ns i) (j : Nat)
    (hj : j ∈ e.children) :
    i < j ∧ j < i + (preorderList ns).length := by
  match ns with
  | [] => rw [uiSegmentList] at he; exact absurd he (List.not_mem_nil _)
  | c :: rest =>
    have hp := preorder_length_pos c
    have hlen : (preorderList (c :: rest)).length =
        (preorder c).length + (preorderList rest).length := by
      simp [preorderList]
    rw [uiSegmentList] at he
    rcases List.mem_append.mp he with h0 | h1
    · have hb := uiSegment_children_bound c i e h0 j hj
      omega
    · have hb := uiSegmentList_children_bound rest (i + (preorder c).length) e h1 j hj
      omega
end

theorem childOcc_nil (j : Nat) : childOcc [] j = 0 := rfl

theorem childOcc_cons (e : PlanNodeUI) (es : List PlanNodeUI) (j : Nat) :
    childOcc (e :: es) j = e.children.count j + childOcc es j := by
  simp [childOcc]

theorem childOcc_append (a b : List PlanNodeUI) (j : Nat) :
    childOcc (a ++ b) j = childOcc a j + childOcc b j := by
  simp [childOcc]

mutual
theorem uiSegment_childOcc (n : PlanNode) (i : Nat) (j : Nat) :
    childOcc (uiSegment n i) j =
      if i < j ∧ j < i + (preorder n).length then 1 else 0 := by
  match n with
  | .mk nt rn al sc tc ast att ar alp ps ex =>
    have hlen : (preorder (PlanNode.mk nt rn al sc tc ast att ar alp ps ex)).length =
        1 + (preorderList ps).length := by
      simp [preorder]
      omega
    rw [uiSegment, childOcc_cons, uiSegmentList_childOcc ps (i + 1) j]
    have hcnt :
        ({ expanded := true, children := uiChildIdxs ps (i + 1),
            plan_node := PlanNode.mk nt rn al sc tc ast att ar alp ps ex } :
          PlanNodeUI).children.count j =
        if j ∈ uiChildIdxs ps (i + 1) then 1 else 0 :=
      uiChildIdxs_count ps (i + 1) j
    rw [hcnt]
    by_cases hmem : j ∈ uiChildIdxs ps (i + 1)
    · have hb := uiChildIdxs_bounds ps (i + 1) j hmem
      simp only [hmem, if_true, not_true, and_false, if_false]
      split_ifs <;> omega
    · simp only [hmem, if_false, not_false_iff, and_true]
      split_ifs <;> omega

theorem uiSegmentList_childOcc (ns : List PlanNode) (i : Nat) (j : Nat) :
    childOcc (uiSegmentList ns i) j =
      if i ≤ j ∧ j < i + (preorderList ns).length ∧ j ∉ uiChildIdxs ns i
      then 1 else 0 := by
  match ns with
  | [] =>
    simp only [uiSegmentList, childOcc_nil, preorderList, uiChildIdxs,
      List.length_nil, List.not_mem_nil, not_false_iff, and_true]
    split_ifs <;> omega
  | c :: rest =>
    have hp := preorder_length_pos c
    have hlen : (preorderList (c :: rest)).length =
        (preorder c).length + (preorderList rest).length := by
      simp [preorderList]
    rw [uiSegmentList, childOcc_append, uiSegment_childOcc c i j,
      uiSegmentList_childOcc rest (i + (preorder c).length) j]
    simp only [uiChildIdxs, List.mem_cons]
    by_cases hmem : j ∈ uiChildIdxs rest (i + (preorder c).length)
    · have hb := uiChildIdxs_bounds rest (i + (preorder c).length) j hmem
      simp only [hmem, not_true, and_false, if_false, or_true, not_or]
      split_ifs <;> omega
    · by_cases hji : j = i
      · subst hji
        simp only [hmem, true_or, not_true, and_false, if_false]
        split_ifs <;> omega
      · simp only [hmem, hji, false_or, not_false_iff, and_true]
        split_ifs <;> omega
end

mutual
theorem uiSegment_expanded (n : PlanNode) (i : Nat) (e : PlanNodeUI)
    (he : e ∈ uiSegment n i) : e.expanded = true := by
  match n with
  | .mk nt rn al sc tc ast att ar alp ps ex =>
    rw [uiSegment] at he
    rcases List.mem_cons.mp he with rfl | he2
    · rfl
    · exact uiSegmentList_expanded ps (i + 1) e he2

theorem uiSegmentList_expanded (ns : List PlanNode) (i : Nat) (e : PlanNodeUI)
    (he : e ∈ uiSegmentList ns i) : e.expanded = true := by
  match ns with
  | [] => rw [uiSegmentList] at he; exact absurd he (List.not_mem_nil _)
  | c :: rest =>
    rw [uiSegmentList] at he
    rcases List.mem_append.mp he with h0 | h1
    · exact uiSegment_expanded c i e h0
    · exact uiSegmentList_expanded rest (i + (preorder c).length) e h1
end

/-! ## Characterization of the benchmark loops -/

theorem execute_single_run_calls (suite : BenchmarkSuite) (env : RunEnv)
    (j k : Nat) :
    (execute_single_run suite env j k).2 = k + sourceCallsPerRun suite := by
  unfold execute_single_run sourceCallsPerRun
  by_cases h : suite.config.include_execution_plans
  · simp only [h, if_true]
    cases env.source k <;> simp
  · simp [h]

theorem warmup_foldl_calls (suite : BenchmarkSuite) (env : RunEnv) (n : Nat) :
    (List.range n).foldl (fun k j => (execute_single_run suite env j k).2) 0 =
      n * sourceCallsPerRun suite := by
  induction n with
  | zero => simp
  | succ n ih =>
    rw [List.range_succ, List.foldl_append, ih]
    simp only [List.foldl_cons, List.foldl_nil]
    rw [execute_single_run_calls]
    ring

theorem warmupPhase_calls (suite : BenchmarkSuite) (env : RunEnv) :
    warmupPhase suite env = suite.config.warmup_runs * sourceCallsPerRun suite := by
  unfold warmupPhase
  exact warmup_foldl_calls suite env _

theorem measured_foldl_spec (suite : BenchmarkSuite) (env : RunEnv) (n : Nat) :
    (List.range n).foldl (measuredStep suite env) ([], 0, warmupPhase suite env) =
      (((List.range n).map (runResult suite env)).filterMap Except.toOption,
       ((List.range n).map (runResult suite env)).countP (fun r => !r.isOk),
       (suite.config.warmup_runs + n) * sourceCallsPerRun suite) := by
  induction n with
  | zero => simp [warmupPhase_calls]
  | succ n ih =>
    rw [List.range_succ, List.foldl_append, ih]
    simp only [List.foldl_cons, List.foldl_nil, List.map_append, List.map_cons,
      List.map_nil, List.filterMap_append, List.countP_append]
    unfold measuredStep
    rcases hr : execute_single_run suite env (suite.config.warmup_runs + n)
        ((suite.config.warmup_runs + n) * sourceCallsPerRun suite) with ⟨res, k2⟩
    have hk2 : k2 = (suite.config.warmup_runs + n) * sourceCallsPerRun suite +
        sourceCallsPerRun suite := by
      have h := execute_single_run_calls suite env (suite.config.warmup_runs + n)
        ((suite.config.warmup_runs + n) * sourceCallsPerRun suite)
      rw [hr] at h
      exact h
    have hrr : runResult suite env n = res := by
      unfold runResult callCounterAt
      rw [hr]
    have hmul : (suite.config.warmup_runs + n) * sourceCallsPerRun suite +
        sourceCallsPerRun suite =
        (suite.config.warmup_runs + (n + 1)) * sourceCallsPerRun suite := by
      ring
    cases res with
    | ok run =>
        simp [hr, hk2, hrr, hmul, Except.toOption, Except.isOk, Except.toBool,
          List.countP_cons, List.filterMap_cons]
    | error e =>
        simp [hr, hk2, hrr, hmul, Except.toOption, Except.isOk, Except.toBool,
          List.countP_cons, List.filterMap_cons]

theorem measuredPhase_spec (suite : BenchmarkSuite) (env : RunEnv) :
    measuredPhase suite env =
      (((List.range suite.config.benchmark_runs).map
          (runResult suite env)).filterMap Except.toOption,
       ((List.range suite.config.benchmark_runs).map
          (runResult suite env)).countP (fun r => !r.isOk),
       (suite.config.warmup_runs + suite.config.benchmark_runs) *
         sourceCallsPerRun suite) := by
  unfold measuredPhase
  exact measured_foldl_spec suite env _

theorem except_isOk_ok (v : BenchmarkRun) :
    (Except.ok v : Except SqlTraceError BenchmarkRun).isOk = true := rfl

theorem except_isOk_error (e : SqlTraceError) :
    (Except.error e : Except SqlTraceError BenchmarkRun).isOk = false := rfl

theorem toOption_length_add_countP
    (l : List (Except SqlTraceError BenchmarkRun)) :
    (l.filterMap Except.toOption).length + l.countP (fun r => !r.isOk) =
      l.length := by
  induction l with
  | nil => simp
  | cons x xs ih =>
    cases x with
    | ok v =>
        simp only [List.filterMap_cons, Except.toOption, List.countP_cons,
          except_isOk_ok, Bool.not_true, List.length_cons]
        simp only [Bool.false_eq_true, if_false]
        omega
    | error e =>
        simp only [List.filterMap_cons, Except.toOption, List.countP_cons,
          except_isOk_error, Bool.not_false, List.length_cons, if_pos]
        omega

theorem filterMap_toOption_nil_iff
    (l : List (Except SqlTraceError BenchmarkRun)) :
    l.filterMap Except.toOption = [] ↔ ∀ r ∈ l, r.isOk = false := by
  induction l with
  | nil => simp
  | cons x xs ih =>
    cases x with
    | ok v =>
        simp only [List.filterMap_cons, Except.toOption]
        constructor
        · intro h
          exact absurd h (List.cons_ne_nil _ _)
        · intro h
          have := h (Except.ok v) (List.mem_cons_self _ _)
          rw [except_isOk_ok] at this
          exact absurd this (by decide)
    | error e =>
        simp only [List.filterMap_cons, Except.toOption]
        rw [ih]
        constructor
        · intro h r hr
          rcases List.mem_cons.mp hr with rfl | hr2
          · exact except_isOk_error e
          · exact h r hr2
        · intro h r hr
          exact h r (List.mem_cons_of_mem _ hr)

/-! ## Helper facts for the duration statistics -/

theorem foldl_min_le (as : List Nat) :
    ∀ (a x : Nat), x ∈ a :: as → as.foldl Nat.min a ≤ x := by
  induction as with
  | nil =>
    intro a x hx
    rcases List.mem_cons.mp hx with rfl | hx2
    · simp
    · exact absurd hx2 (List.not_mem_nil _)
  | cons b bs ih =>
    intro a x hx
    simp only [List.foldl_cons]
    rcases List.mem_cons.mp hx with rfl | hx2
    · exact le_trans (ih (Nat.min x b) (Nat.min x b) (List.mem_cons_self _ _))
        (Nat.min_le_left _ _)
    · rcases List.mem_cons.mp hx2 with rfl | hx3
      · exact le_trans (ih (Nat.min a x) (Nat.min a x) (List.mem_cons_self _ _))
          (Nat.min_le_right _ _)
      · exact ih (Nat.min a b) x (List.mem_cons_of_mem _ hx3)

theorem le_foldl_max (as : List Nat) :
    ∀ (a x : Nat), x ∈ a :: as → x ≤ as.foldl Nat.max a := by
  induction as with
  | nil =>
    intro a x hx
    rcases List.mem_cons.mp hx with rfl | hx2
    · simp
    · exact absurd hx2 (List.not_mem_nil _)
  | cons b bs ih =>
    intro a x hx
    simp only [List.foldl_cons]
    rcases List.mem_cons.mp hx with rfl | hx2
    · exact le_trans (Nat.le_max_left _ _)
        (ih (Nat.max x b) (Nat.max x b) (List.mem_cons_self _ _))
    · rcases List.mem_cons.mp hx2 with rfl | hx3
      · exact le_trans (Nat.le_max_right _ _)
          (ih (Nat.max a x) (Nat.max a x) (List.mem_cons_self _ _))
      · exact ih (Nat.max a b) x (List.mem_cons_of_mem _ hx3)

theorem length_mul_le_sum (l : List Nat) (m : Nat) (h : ∀ x ∈ l, m ≤ x) :
    l.length * m ≤ l.sum := by
  induction l with
  | nil => simp
  | cons x xs ih =>
    have hx := h x (List.mem_cons_self _ _)
    have hrest := ih (fun y hy => h y (List.mem_cons_of_mem _ hy))
    simp only [List.length_cons, List.sum_cons, Nat.succ_mul]
    omega

theorem sum_le_length_mul (l : List Nat) (M : Nat) (h : ∀ x ∈ l, x ≤ M) :
    l.sum ≤ l.length * M := by
  induction l with
  | nil => simp
  | cons x xs ih =>
    have hx := h x (List.mem_cons_self _ _)
    have hrest := ih (fun y hy => h y (List.mem_cons_of_mem _ hy))
    simp only [List.length_cons, List.sum_cons, Nat.succ_mul]
    omega

theorem listGetD_mem {α : Type} (l : List α) (i : Nat) (d : α)
    (h : i < l.length) : l.getD i d ∈ l := by
  induction l generalizing i with
  | nil => simp at h
  | cons x xs ih =>
    cases i with
    | zero => simp [List.getD]
    | succ i =>
        simp only [List.getD_cons_succ]
        exact List.mem_cons_of_mem _ (ih i (by simpa using h))

/-! ## Claim theorems -/

theorem calculate_performance_score_eq (l : List OptimizationSuggestion)
    (plan : ExecutionPlan) :
    calculate_performance_score l plan =
      Nat.max ((100 -
        (20 * l.countP (fun s => s.severity = Severity.high) +
         10 * l.countP (fun s => s.severity = Severity.medium) +
         5 * l.countP (fun s => s.severity = Severity.low))) -
        (if plan.execution_time > 1000 then 10 else 0)) 10 := by
  unfold calculate_performance_score
  rw [foldl_severity_sub, severity_sum_counts]
  by_cases h : plan.execution_time > 1000
  · simp [h]
  · simp [h]

/-- C1: for every configuration and plan, the performance score equals 100
minus 20 per High, 10 per Medium and 5 per Low suggestion (truncated
subtraction saturating at 0), minus a further 10 when execution_time
exceeds 1000 ms, floored at 10; hence the score always lies in
[10, 100]. -/
theorem claim_c1_performance_score (cfg : AdvisorConfig) (plan : ExecutionPlan) :
    (analyze_plan cfg plan).performance_score =
      Nat.max ((100 -
        (20 * (analyze_plan cfg plan).suggestions.countP
            (fun s => s.severity = Severity.high) +
         10 * (analyze_plan cfg plan).suggestions.countP
            (fun s => s.severity = Severity.medium) +
         5 * (analyze_plan cfg plan).suggestions.countP
            (fun s => s.severity = Severity.low))) -
        (if plan.execution_time > 1000 then 10 else 0)) 10
    ∧ 10 ≤ (analyze_plan cfg plan).performance_score
    ∧ (analyze_plan cfg plan).performance_score ≤ 100 := by
  have hps : (analyze_plan cfg plan).performance_score =
      calculate_performance_score (analyze_plan cfg plan).suggestions plan := rfl
  have h := calculate_performance_score_eq (analyze_plan cfg plan).suggestions plan
  refine ⟨hps.trans h, ?_, ?_⟩
  · rw [hps, h]
    exact Nat.le_max_right _ _
  · rw [hps, h]
    refine Nat.max_le.mpr ⟨?_, by norm_num⟩
    exact le_trans (Nat.sub_le _ _) (Nat.sub_le _ _)

/-- C6 counterexample: on the concrete four-node plan the two suggestions
fired by the expensive Seq Scan carry node_index 2, while that node is the
fourth node in depth-first pre-order (0-based position 3); the suggestion
list differs from the one a pre-order visit counter would produce. -/
theorem claim_c6_counterexample :
    ((analyze_plan AdvisorConfig.default c6Plan).suggestions.map
        (fun s => s.node_index) = [some 2, some 2])
    ∧ ((preorder c6Root).map PlanNode.node_type = ["Root", "A", "A1", "Seq Scan"])
    ∧ (analyze_plan AdvisorConfig.default c6Plan).suggestions ≠
        ((preorder c6Plan.root).zip
          (List.range (preorder c6Plan.root).length)).flatMap
          (fun p => rulesAt AdvisorConfig.default p.1 p.2) := by
  exact ⟨by decide, by decide, by decide⟩

/-- C6 amended: each suggestion carries the node_index assigned by the
recursive numbering in which the traversal root carries the incoming index
and the i-th child (0-based) of a node with index p carries p + i + 1;
the whole suggestion list is the concatenation of the per-node rule
output along that numbering, and every suggestion a node fires carries
exactly that node index. -/
theorem claim_c6_amended (cfg : AdvisorConfig) (plan : ExecutionPlan) :
    (analyze_plan cfg plan).suggestions =
      (advisorVisits plan.root 0).flatMap (fun p => rulesAt cfg p.1 p.2)
    ∧ ∀ n idx s, s ∈ rulesAt cfg n idx → s.node_index = some idx := by
  constructor
  · exact analyze_node_suggestions cfg plan.root ([], []) 0
  · exact fun n idx s hs => rulesAt_node_index cfg n idx s hs

theorem claim_c6_amended_witness :
    (⟨"Index", Severity.high, some 7⟩ : OptimizationSuggestion) ∈
        rulesAt AdvisorConfig.default (mkLeaf "Seq Scan" 5000 0) 7
    ∧ (⟨"Index", Severity.high, some 7⟩ : OptimizationSuggestion).node_index =
        some 7 := by
  have hmem : (⟨"Index", Severity.high, some 7⟩ : OptimizationSuggestion) ∈
      rulesAt AdvisorConfig.default (mkLeaf "Seq Scan" 5000 0) 7 := by decide
  exact ⟨hmem,
    (claim_c6_amended AdvisorConfig.default seqScanPlan).2 _ 7 _ hmem⟩

/-- C7: every suggestion with a node_index has it strictly below the
number of nodes visited by the analysis, which is the pre-order node count
of the plan. -/
theorem claim_c7_node_index_lt_visited (cfg : AdvisorConfig)
    (plan : ExecutionPlan) :
    ∀ s ∈ (analyze_plan cfg plan).suggestions, ∀ k, s.node_index = some k →
      k < (preorder plan.root).length := by
  intro s hs k hk
  have hchar := analyze_node_suggestions cfg plan.root ([], []) 0
  have hs2 : s ∈ ([] : List OptimizationSuggestion) ++
      (advisorVisits plan.root 0).flatMap (fun p => rulesAt cfg p.1 p.2) :=
    hchar ▸ hs
  rw [List.nil_append] at hs2
  rcases List.mem_flatMap.mp hs2 with ⟨p, hp, hsp⟩
  rcases p with ⟨m, k2⟩
  have hidx := rulesAt_node_index cfg m k2 s hsp
  rw [hidx] at hk
  have hkk : k2 = k := Option.some.inj hk
  have hb := advisorVisits_idx_bound plan.root 0 m k2 hp
  omega

theorem claim_c7_witness :
    (⟨"Index", Severity.high, some 0⟩ : OptimizationSuggestion) ∈
        (analyze_plan AdvisorConfig.default seqScanPlan).suggestions
    ∧ (0 : Nat) < (preorder seqScanPlan.root).length := by
  refine ⟨by decide, ?_⟩
  exact claim_c7_node_index_lt_visited AdvisorConfig.default seqScanPlan
    ⟨"Index", Severity.high, some 0⟩ (by decide) 0 rfl

/-- C2: building the UI tree from a fresh default PlanTree assigns the
root index 0, appends exactly one entry per plan node in depth-first
pre-order (entry k holds the k-th pre-order node, the index equal to the
sequence length at its append time), keeps every stored child index below
the final node count, gives index 0 no parent and every other index
exactly one parent across all child lists, and sets root_indices to
[0]. -/
theorem claim_c2_indexer (root : PlanNode) :
    (builtFromRoot root).2 = 0
    ∧ (builtFromRoot root).1.nodes.map PlanNodeUI.plan_node = preorder root
    ∧ (∀ e ∈ (builtFromRoot root).1.nodes, ∀ j ∈ e.children,
        j < (builtFromRoot root).1.nodes.length)
    ∧ childOcc (builtFromRoot root).1.nodes 0 = 0
    ∧ (∀ j, 0 < j → j < (builtFromRoot root).1.nodes.length →
        childOcc (builtFromRoot root).1.nodes j = 1)
    ∧ (builtFromRoot root).1.root_indices = [0] := by
  have hb : builtFromRoot root =
      ({ nodes := uiSegment root 0, root_indices := [0],
         last_plan_hash := none }, 0) := by
    unfold builtFromRoot
    rw [build_plan_tree_ui_spec root PlanTree.default 0 none]
    simp [PlanTree.default]
  rw [hb]
  dsimp only
  have hlen := uiSegment_length root 0
  refine ⟨rfl, uiSegment_map_plan_node root 0, ?_, ?_, ?_, rfl⟩
  · intro e he j hj
    have hbnd := uiSegment_children_bound root 0 e he j hj
    omega
  · rw [uiSegment_childOcc root 0 0]
    simp
  · intro j hj0 hjlen
    rw [uiSegment_childOcc root 0 j, if_pos]
    exact ⟨hj0, by omega⟩

theorem claim_c2_witness :
    childOcc (builtFromRoot c6Root).1.nodes 2 = 1 :=
  (claim_c2_indexer c6Root).2.2.2.2.1 2 (by decide) (by decide)

/-- C10: after building the UI tree, every entry is expanded; the build
unconditionally expands every node at every depth. -/
theorem claim_c10_expand_all (root : PlanNode) :
    ∀ e ∈ (builtFromRoot root).1.nodes, e.expanded = true := by
  intro e he
  have hb : (builtFromRoot root).1.nodes = uiSegment root 0 := by
    unfold builtFromRoot
    rw [build_plan_tree_ui_spec root PlanTree.default 0 none]
    simp [PlanTree.default]
  rw [hb] at he
  exact uiSegment_expanded root 0 e he

theorem claim_c10_witness :
    ((builtFromRoot c6Root).1.nodes.getD 0
        { expanded := false, children := [], plan_node := c6Root }).expanded =
      true :=
  claim_c10_expand_all c6Root _ (listGetD_mem _ 0 _ (by decide))

/-- C3: when at least one measured run succeeds, benchmark_query returns a
result whose successful and failed run counts sum to the configured
benchmark_runs (warmup iterations counted in neither); when every measured
run fails, it returns the aggregate all-runs-failed error. -/
theorem claim_c3_run_counts (suite : BenchmarkSuite) (env : RunEnv) (q : String) :
    ((∃ i, i < suite.config.benchmark_runs ∧
        (runResult suite env i).isOk = true) →
      ∃ res, (benchmark_query suite env q).1 = Except.ok res ∧
        res.statistics.successful_runs + res.statistics.failed_runs =
          suite.config.benchmark_runs)
    ∧ ((∀ i, i < suite.config.benchmark_runs →
          (runResult suite env i).isOk = false) →
      (benchmark_query suite env q).1 =
        Except.error (SqlTraceError.database "All benchmark runs failed")) := by
  have hm := measuredPhase_spec suite env
  constructor
  · rintro ⟨i, hi, hok⟩
    set rs := (List.range suite.config.benchmark_runs).map (runResult suite env)
      with hrs
    have hne : rs.filterMap Except.toOption ≠ [] := by
      intro hnil
      have hall := (filterMap_toOption_nil_iff rs).mp hnil
      have hmem : runResult suite env i ∈ rs := by
        rw [hrs]
        exact List.mem_map.mpr ⟨i, List.mem_range.mpr hi, rfl⟩
      have hfalse := hall _ hmem
      rw [hok] at hfalse
      exact absurd hfalse (by decide)
    have hemp : (rs.filterMap Except.toOption).isEmpty = false := by
      cases hcase : rs.filterMap Except.toOption with
      | nil => exact absurd hcase hne
      | cons a l => rfl
    refine ⟨{ query := q
              runs := rs.filterMap Except.toOption
              statistics := calculate_statistics (rs.filterMap Except.toOption)
                (rs.countP (fun r => !r.isOk))
              config := suite.config }, ?_, ?_⟩
    · simp only [benchmark_query, hm, hemp, Bool.false_eq_true, if_false]
    · show (rs.filterMap Except.toOption).length +
        rs.countP (fun r => !r.isOk) = suite.config.benchmark_runs
      have hpart := toOption_length_add_countP rs
      have hlen : rs.length = suite.config.benchmark_runs := by
        rw [hrs]
        simp
      omega
  · intro hall
    set rs := (List.range suite.config.benchmark_runs).map (runResult suite env)
      with hrs
    have hnil : rs.filterMap Except.toOption = [] := by
      apply (filterMap_toOption_nil_iff rs).mpr
      intro r hr
      rw [hrs] at hr
      rcases List.mem_map.mp hr with ⟨i, hi, rfl⟩
      exact hall i (List.mem_range.mp hi)
    simp only [benchmark_query, hm, hnil, List.isEmpty_nil, if_true]

theorem claim_c3_witness :
    (∃ i, i < noPlanSuite.config.benchmark_runs ∧
        (runResult noPlanSuite errorEnv i).isOk = true)
    ∧ ∃ res,
        (benchmark_query noPlanSuite errorEnv "SELECT 1").1 = Except.ok res ∧
        res.statistics.successful_runs + res.statistics.failed_runs =
          noPlanSuite.config.benchmark_runs := by
  have hyp : ∃ i, i < noPlanSuite.config.benchmark_runs ∧
      (runResult noPlanSuite errorEnv i).isOk = true := ⟨0, by decide, by decide⟩
  exact ⟨hyp, (claim_c3_run_counts noPlanSuite errorEnv "SELECT 1").1 hyp⟩

/-- C4 counterexample: with include_execution_plans disabled, a measured
iteration performs zero plan-source calls, not exactly one: starting from
call counter 0 the counter stays 0. -/
theorem claim_c4_counterexample :
    (execute_single_run noPlanSuite errorEnv 0 0).2 = 0
    ∧ ¬((execute_single_run noPlanSuite errorEnv 0 0).2 = 0 + 1) := by
  decide

/-- C4 amended: each execute_single_run invocation advances the
plan-source call counter by exactly one when include_execution_plans is
enabled and by zero when it is disabled (independently of success or
failure, so a failing iteration is not retried); the measured loop runs
one invocation per configured iteration, collecting successes in order
and counting one failure per failing iteration, and the total call count
is (warmup_runs + benchmark_runs) times the per-invocation count. -/
theorem claim_c4_amended (suite : BenchmarkSuite) (env : RunEnv) (j k : Nat) :
    (execute_single_run suite env j k).2 = k + sourceCallsPerRun suite
    ∧ sourceCallsPerRun suite =
        (if suite.config.include_execution_plans then 1 else 0)
    ∧ (measuredPhase suite env).1 =
        ((List.range suite.config.benchmark_runs).map
          (runResult suite env)).filterMap Except.toOption
    ∧ (measuredPhase suite env).2.1 =
        ((List.range suite.config.benchmark_runs).map
          (runResult suite env)).countP (fun r => !r.isOk)
    ∧ (measuredPhase suite env).2.2 =
        (suite.config.warmup_runs + suite.config.benchmark_runs) *
          sourceCallsPerRun suite := by
  have hm := measuredPhase_spec suite env
  refine ⟨execute_single_run_calls suite env j k, rfl, ?_, ?_, ?_⟩
  · rw [hm]
  · rw [hm]
  · rw [hm]

/-- C5 counterexample: the bare single-object form and the direct
Plan-object form are rejected with the unexpected-format parsing error,
not accepted as an ExecutionPlan. -/
theorem claim_c5_counterexample :
    explain_plan_json c5Bare =
      Except.error (SqlTraceError.planError "Unexpected EXPLAIN output format")
    ∧ explain_plan_json c5Direct =
      Except.error (SqlTraceError.planError "Unexpected EXPLAIN output format") :=
  ⟨rfl, rfl⟩

/-- C5 amended: plan parsing accepts only the array form whose first
element carries Plan; every top-level object (in particular the bare
single-object form and the direct Plan-object form) without a string
error field is rejected with the unexpected-format parsing error, while
the same bare object wrapped in an array parses successfully. -/
theorem claim_c5_amended :
    (∀ fields : List (String × Json),
      ((Json.obj fields).get "error").bind Json.asStr = none →
        explain_plan_json (Json.obj fields) =
          Except.error (SqlTraceError.planError "Unexpected EXPLAIN output format"))
    ∧ (explain_plan_json (Json.arr [c5Bare])).isOk = true := by
  constructor
  · intro fields h
    unfold explain_plan_json
    rw [h]
    rfl
  · decide

theorem claim_c5_witness :
    explain_plan_json (Json.obj c5BareFields) =
      Except.error (SqlTraceError.planError "Unexpected EXPLAIN output format") :=
  claim_c5_amended.1 c5BareFields (by decide)

/-- C8: the comparison significance of the source equals the computation
as the specification words it: fewer than 3 successful runs on either
side gives NotSignificant, a zero pooled standard deviation (the plain
average of the two standard deviations) gives NotSignificant, and
otherwise the statistic abs(meanA - meanB) divided by
pooledStddev * sqrt(1/nA + 1/nB) maps through the fixed thresholds
2.576, 1.96, 1.645. -/
theorem claim_c8_significance (a b : BenchmarkResult) :
    calculate_statistical_significance a b = specSignificance a b := by
  simp only [calculate_statistical_significance, specSignificance]
  have hcast : (((a.statistics.successful_runs : ℝ) < 3) ∨
      ((b.statistics.successful_runs : ℝ) < 3)) ↔
      (a.statistics.successful_runs < 3 ∨ b.statistics.successful_runs < 3) := by
    constructor
    · rintro (hlt | hlt)
      · exact Or.inl (by exact_mod_cast hlt)
      · exact Or.inr (by exact_mod_cast hlt)
    · rintro (hlt | hlt)
      · exact Or.inl (by exact_mod_cast hlt)
      · exact Or.inr (by exact_mod_cast hlt)
  rw [if_congr hcast rfl rfl]

theorem stats_bounds (ds : List Nat) (hne : ds ≠ []) :
    ds.min?.getD 0 ≤ calculate_average_duration ds
    ∧ calculate_average_duration ds ≤ ds.max?.getD 0
    ∧ calculate_average_duration ds = ds.sum / ds.length
    ∧ calculate_percentile ds (19 / 20) =
        (List.insertionSort (fun a b => a ≤ b) ds).getD
          (ratTruncToNat ((19 / 20 : ℚ) * ((ds.length - 1 : Nat) : ℚ))) 0
    ∧ (ds.length = 1 → calculate_percentile ds (19 / 20) = ds.max?.getD 0) := by
  rcases List.exists_cons_of_ne_nil hne with ⟨d, t, rfl⟩
  have hlenpos : 0 < (d :: t).length := by simp
  have hminval : (d :: t).min?.getD 0 = t.foldl Nat.min d := rfl
  have hmaxval : (d :: t).max?.getD 0 = t.foldl Nat.max d := rfl
  have havg : calculate_average_duration (d :: t) = (d :: t).sum / (d :: t).length := by
    unfold calculate_average_duration
    rw [if_neg (by simp)]
  refine ⟨?_, ?_, havg, ?_, ?_⟩
  · rw [hminval, havg, Nat.le_div_iff_mul_le hlenpos]
    have hsum := length_mul_le_sum (d :: t) (t.foldl Nat.min d)
      (fun x hx => foldl_min_le t d x hx)
    rw [Nat.mul_comm] at hsum
    exact hsum
  · rw [hmaxval, havg]
    have hsum := sum_le_length_mul (d :: t) (t.foldl Nat.max d)
      (fun x hx => le_foldl_max t d x hx)
    calc (d :: t).sum / (d :: t).length
        ≤ ((d :: t).length * (t.foldl Nat.max d)) / (d :: t).length :=
          Nat.div_le_div_right hsum
      _ = t.foldl Nat.max d := Nat.mul_div_cancel_left _ hlenpos
  · unfold calculate_percentile
    rw [if_neg (by simp)]
  · intro h1
    have ht : t = [] := by
      simp only [List.length_cons] at h1
      exact List.length_eq_zero.mp (by omega)
    subst ht
    unfold calculate_percentile
    rw [if_neg (by simp)]
    have hidx : ratTruncToNat ((19 / 20 : ℚ) * (((d :: []).length - 1 : Nat) : ℚ)) = 0 := by
      norm_num
      rfl
    rw [hidx, hmaxval]
    rfl

/-- C9: for every non-empty run sample, min is at most the truncated
integer mean of the nanosecond counts, which is at most max; p95 is the
ascending-sorted element at the truncated index 0.95 times (n - 1); and
for a single run p95 equals max. -/
theorem claim_c9_statistics (runs : List BenchmarkRun) (failed : Nat)
    (h : runs ≠ []) :
    (calculate_statistics runs failed).min_execution_time ≤
      (calculate_statistics runs failed).avg_execution_time
    ∧ (calculate_statistics runs failed).avg_execution_time ≤
      (calculate_statistics runs failed).max_execution_time
    ∧ (calculate_statistics runs failed).avg_execution_time =
        (runs.map (fun r => r.execution_time)).sum / runs.length
    ∧ (calculate_statistics runs failed).p95_execution_time =
        (List.insertionSort (fun a b => a ≤ b)
            (runs.map (fun r => r.execution_time))).getD
          (ratTruncToNat ((19 / 20 : ℚ) * ((runs.length - 1 : Nat) : ℚ))) 0
    ∧ (runs.length = 1 →
        (calculate_statistics runs failed).p95_execution_time =
          (calculate_statistics runs failed).max_execution_time) := by
  have hds : runs.map (fun r => r.execution_time) ≠ [] := by
    simpa using h
  have hb := stats_bounds (runs.map (fun r => r.execution_time)) hds
  have hlen : (runs.map (fun r => r.execution_time)).length = runs.length :=
    List.length_map _ _
  refine ⟨hb.1, hb.2.1, ?_, ?_, ?_⟩
  · rw [← hlen]
    exact hb.2.2.1
  · rw [← hlen]
    exact hb.2.2.2.1
  · intro h1
    exact hb.2.2.2.2 (by omega)

theorem claim_c9_witness :
    c9Runs ≠ []
    ∧ (calculate_statistics c9Runs 0).min_execution_time ≤
        (calculate_statistics c9Runs 0).avg_execution_time
    ∧ (calculate_statistics c9Runs 0).avg_execution_time ≤
        (calculate_statistics c9Runs 0).max_execution_time := by
  have hne : c9Runs ≠ [] := List.cons_ne_nil _ _
  have hb := claim_c9_statistics c9Runs 0 hne
  exact ⟨hne, hb.1, hb.2.1⟩
